import Mathlib

/- A shallow embedding of src/hotspot/share/jfr/recorder/storage/jfrMemorySpace.inline.hpp,
   the JFR memory-space buffer pool of this repository.  Machine integers (size_t, u8)
   are modelled as Nat; the embedding targets LP64, where
   static_cast<size_t>(min_intx) = 2 ^ 63.  The heap allocation primitive
   (JfrCHeapObj::new_array) and the buffer type T's own initialization are external
   collaborators and are modelled as boolean oracles; the retrieval policy
   (mspace->get) is modelled as a state-transformer oracle. -/

/-- On LP64 platforms `static_cast<size_t>(min_intx)` equals `2 ^ 63`; this is the
upper bound against which `align_allocation_size` checks the requested size. -/
def min_intx_as_size_t : Nat := 2 ^ 63

/-- Models the loop `while (requested_size > alloc_size_bytes) alloc_size_bytes <<= 1;`
of `align_allocation_size`.  The fuel argument bounds the number of doublings; 64
doublings suffice for every terminating execution of the C loop (the u8 accumulator
has 64 bits, and for a positive `min_elem_size` the loop exits after at most 63
doublings, once the accumulator reaches `2 ^ 63`, which is an upper bound for every
requested size that passed the sentinel check). -/
def alignLoop : Nat → Nat → Nat → Nat
  | 0, _, alloc => alloc
  | fuel + 1, requested, alloc =>
    if alloc < requested then alignLoop fuel requested (alloc * 2) else alloc

/-- Models `align_allocation_size(requested_size, min_elem_size)`: a requested size
above `static_cast<size_t>(min_intx)` yields the failure sentinel 0, otherwise the
minimum element size is doubled until it covers the request. -/
def align_allocation_size (requested_size min_elem_size : Nat) : Nat :=
  if min_intx_as_size_t < requested_size then 0
  else alignLoop 64 requested_size min_elem_size

theorem alignLoop_of_le (fuel requested alloc : Nat) (h : requested ≤ alloc) :
    alignLoop fuel requested alloc = alloc := by
  cases fuel with
  | zero => rfl
  | succ f => simp [alignLoop, Nat.not_lt.mpr h]

theorem alignLoop_ge_alloc (fuel requested alloc : Nat) :
    alloc ≤ alignLoop fuel requested alloc := by
  induction fuel generalizing alloc with
  | zero => exact Nat.le_refl alloc
  | succ f ih =>
    by_cases h : alloc < requested
    · simp only [alignLoop, if_pos h]
      exact Nat.le_trans (by omega) (ih (alloc * 2))
    · simp [alignLoop, h]

theorem alignLoop_pow (fuel requested alloc : Nat) :
    ∃ k, k ≤ fuel ∧ alignLoop fuel requested alloc = alloc * 2 ^ k := by
  induction fuel generalizing alloc with
  | zero => exact ⟨0, Nat.le_refl 0, by simp [alignLoop]⟩
  | succ f ih =>
    by_cases h : alloc < requested
    · obtain ⟨k, hk, he⟩ := ih (alloc * 2)
      refine ⟨k + 1, by omega, ?_⟩
      simp only [alignLoop, if_pos h, he]
      ring
    · exact ⟨0, by omega, by simp [alignLoop, h]⟩

theorem alignLoop_ge_requested (fuel requested alloc : Nat) (h1 : 1 ≤ alloc)
    (h2 : requested ≤ alloc * 2 ^ fuel) :
    requested ≤ alignLoop fuel requested alloc := by
  induction fuel generalizing alloc with
  | zero => simpa [alignLoop] using h2
  | succ f ih =>
    by_cases h : alloc < requested
    · simp only [alignLoop, if_pos h]
      refine ih (alloc * 2) (by omega) ?_
      have he : alloc * 2 ^ (f + 1) = alloc * 2 * 2 ^ f := by ring
      omega
    · rw [alignLoop_of_le (f + 1) requested alloc (by omega)]
      omega

theorem alignLoop_fixed (k : Nat) :
    ∀ minsz fuel, 1 ≤ minsz → k ≤ fuel →
      alignLoop fuel (minsz * 2 ^ k) minsz = minsz * 2 ^ k := by
  induction k with
  | zero =>
    intro minsz fuel h1 _
    simp only [pow_zero, mul_one]
    exact alignLoop_of_le fuel minsz minsz (Nat.le_refl minsz)
  | succ k ih =>
    intro minsz fuel h1 hf
    obtain ⟨f, rfl⟩ : ∃ f, fuel = f + 1 := ⟨fuel - 1, by omega⟩
    have h2 : (2 : Nat) ≤ 2 ^ (k + 1) := by
      calc (2 : Nat) = 2 ^ 1 := (pow_one 2).symm
      _ ≤ 2 ^ (k + 1) := Nat.pow_le_pow_right (by omega) (by omega)
    have h4 : minsz * 2 ≤ minsz * 2 ^ (k + 1) := mul_le_mul_left' h2 minsz
    have hlt : minsz < minsz * 2 ^ (k + 1) := by omega
    simp only [alignLoop, if_pos hlt]
    have he : minsz * 2 ^ (k + 1) = minsz * 2 * 2 ^ k := by ring
    rw [he]
    exact ih (minsz * 2) f (by omega) (by omega)

theorem alignLoop_mono (fuel r1 r2 alloc : Nat) (h : r1 ≤ r2) :
    alignLoop fuel r1 alloc ≤ alignLoop fuel r2 alloc := by
  induction fuel generalizing alloc with
  | zero => simp [alignLoop]
  | succ f ih =>
    by_cases h1 : alloc < r1
    · have h2 : alloc < r2 := by omega
      simp only [alignLoop, if_pos h1, if_pos h2]
      exact ih (alloc * 2)
    · by_cases h2 : alloc < r2
      · simp only [alignLoop, if_neg h1, if_pos h2]
        calc alloc ≤ alloc * 2 := by omega
        _ ≤ alignLoop f r2 (alloc * 2) := alignLoop_ge_alloc f r2 (alloc * 2)
      · simp [alignLoop, h1, h2]

/-- C4 (amended): `align_allocation_size` returns the failure sentinel 0 exactly when
the request exceeds `static_cast<size_t>(min_intx) = 2 ^ 63`; for requests within
that bound it returns a power-of-two multiple of `min_elem_size` — computed by
repeated doubling of `min_elem_size` — that is at least the request (for positive
`min_elem_size`), it is monotonic in the request on that domain, and it is
idempotent on outputs that are themselves within the bound.  Monotonicity and
idempotence do not extend across the sentinel boundary. -/
theorem C4_align_allocation_size_props (r r1 r2 minsz : Nat) :
    (min_intx_as_size_t < r → align_allocation_size r minsz = 0)
    ∧ (r ≤ min_intx_as_size_t → ∃ k, align_allocation_size r minsz = minsz * 2 ^ k)
    ∧ (1 ≤ minsz → r ≤ min_intx_as_size_t → r ≤ align_allocation_size r minsz)
    ∧ (r1 ≤ r2 → r2 ≤ min_intx_as_size_t →
        align_allocation_size r1 minsz ≤ align_allocation_size r2 minsz)
    ∧ (1 ≤ minsz → r ≤ min_intx_as_size_t →
        align_allocation_size r minsz ≤ min_intx_as_size_t →
        align_allocation_size (align_allocation_size r minsz) minsz
          = align_allocation_size r minsz) := by
  refine ⟨?_, ?_, ?_, ?_, ?_⟩
  · intro h
    simp [align_allocation_size, h]
  · intro h
    rw [align_allocation_size, if_neg (by omega)]
    obtain ⟨k, _, he⟩ := alignLoop_pow 64 r minsz
    exact ⟨k, he⟩
  · intro h1 h2
    rw [align_allocation_size, if_neg (by omega)]
    refine alignLoop_ge_requested 64 r minsz h1 ?_
    have h3 : (1 : Nat) * 2 ^ 64 ≤ minsz * 2 ^ 64 := mul_le_mul_right' h1 (2 ^ 64)
    have h4 : min_intx_as_size_t ≤ (2 : Nat) ^ 64 := by
      rw [min_intx_as_size_t]
      exact Nat.pow_le_pow_right (by omega) (by omega)
    omega
  · intro h12 h2B
    rw [align_allocation_size, align_allocation_size,
      if_neg (by omega : ¬ min_intx_as_size_t < r1),
      if_neg (by omega : ¬ min_intx_as_size_t < r2)]
    exact alignLoop_mono 64 r1 r2 minsz h12
  · intro h1 h2 h3
    have hun : align_allocation_size r minsz = alignLoop 64 r minsz := by
      rw [align_allocation_size, if_neg (by omega)]
    obtain ⟨k, hk, he⟩ := alignLoop_pow 64 r minsz
    have hval : align_allocation_size r minsz = minsz * 2 ^ k := by rw [hun, he]
    rw [hval] at h3 ⊢
    rw [align_allocation_size, if_neg (by omega : ¬ min_intx_as_size_t < minsz * 2 ^ k)]
    exact alignLoop_fixed k minsz 64 h1 hk

/-- C4 counterexample: as stated, the claim fails — `align_allocation_size` is
neither monotonic in the request nor idempotent on its own output once the sentinel
is involved: with `min_elem_size = 4096`, the request `2 ^ 63` aligns to `2 ^ 63`,
but the strictly larger request `2 ^ 63 + 1` aligns to the sentinel 0, and
re-aligning that output 0 yields 4096 rather than 0. -/
theorem C4_align_allocation_size_cex :
    align_allocation_size (2 ^ 63) 4096 = 2 ^ 63
    ∧ align_allocation_size (2 ^ 63 + 1) 4096 = 0
    ∧ ¬ align_allocation_size (2 ^ 63) 4096 ≤ align_allocation_size (2 ^ 63 + 1) 4096
    ∧ align_allocation_size (align_allocation_size (2 ^ 63 + 1) 4096) 4096 = 4096 := by
  refine ⟨by decide, by decide, by decide, by decide⟩

/-- Witness for C4: the amended properties applied at request 5000 with minimum
element size 4096. -/
theorem C4_align_allocation_size_props_witness :
    5000 ≤ align_allocation_size 5000 4096
    ∧ align_allocation_size (align_allocation_size 5000 4096) 4096
        = align_allocation_size 5000 4096 :=
  ⟨(C4_align_allocation_size_props 5000 0 0 4096).2.2.1 (by decide) (by decide),
   (C4_align_allocation_size_props 5000 0 0 4096).2.2.2.2 (by decide) (by decide)
     (by decide)⟩

/-- Models the buffer type parameter T of `JfrMemorySpace` (in JFR, `JfrBuffer`):
the state flags and header fields that this translation unit reads or writes.
Buffers are identified by `id`, standing for the object's address; `size` is the
aligned payload capacity handed to the buffer's own initialization; `identity` is
the acquiring thread, or none. -/
structure JfrBuffer where
  id : Nat
  transient : Bool
  lease : Bool
  retired : Bool
  identity : Option Nat
  size : Nat
  deriving DecidableEq

/-- Models `t->set_lease()`. -/
def JfrBuffer.set_lease (t : JfrBuffer) : JfrBuffer := { t with lease := true }

/-- Models `t->set_transient()`. -/
def JfrBuffer.set_transient (t : JfrBuffer) : JfrBuffer := { t with transient := true }

/-- Models `t->acquire(thread)`: record the thread as the buffer's identity. -/
def JfrBuffer.acquire (t : JfrBuffer) (thread : Nat) : JfrBuffer :=
  { t with identity := some thread }

/-- Models `JfrMemorySpace`: the free and full intrusive lists (as lists of buffer
values, ordered head first) together with the pool parameters. -/
structure JfrMemorySpace where
  free : List JfrBuffer
  full : List JfrBuffer
  min_elem_size : Nat
  limit_size : Nat
  cache_count : Nat
  deriving DecidableEq

/-- Models the `JfrMemorySpace` constructor: both lists start empty. -/
def mkMspace (min_elem_size limit_size cache_count : Nat) : JfrMemorySpace :=
  { free := [], full := [], min_elem_size := min_elem_size,
    limit_size := limit_size, cache_count := cache_count }

/-- Models `insert_free_head(t)`: prepend to the free list. -/
def JfrMemorySpace.insert_free_head (m : JfrMemorySpace) (t : JfrBuffer) : JfrMemorySpace :=
  { m with free := t :: m.free }

/-- Models `insert_full_head(t)`: prepend to the full list. -/
def JfrMemorySpace.insert_full_head (m : JfrMemorySpace) (t : JfrBuffer) : JfrMemorySpace :=
  { m with full := t :: m.full }

/-- Models `remove_full(t)` / `_full.remove(t)`: remove the node with t's address. -/
def JfrMemorySpace.remove_full (m : JfrMemorySpace) (t : JfrBuffer) : JfrMemorySpace :=
  { m with full := m.full.filter (fun b => b.id != t.id) }

/-- Models `remove_free(t)` / `_free.remove(t)`: remove the node with t's address. -/
def JfrMemorySpace.remove_free (m : JfrMemorySpace) (t : JfrBuffer) : JfrMemorySpace :=
  { m with free := m.free.filter (fun b => b.id != t.id) }

/-- Models `JfrMemorySpace::allocate(size)`.  The heap primitive
`JfrCHeapObj::new_array` and the buffer's own initialization call are external
collaborators; their combined success is the oracle `heap_ok`.  `fresh_id` stands
for the address of the new allocation.  A freshly constructed buffer has all flags
clear and no owner. -/
def JfrMemorySpace.allocate (m : JfrMemorySpace) (size : Nat) (heap_ok : Bool)
    (fresh_id : Nat) : Option JfrBuffer :=
  if size ≠ 0 ∧ align_allocation_size size m.min_elem_size = 0 then none
  else if heap_ok then
    some { id := fresh_id, transient := false, lease := false, retired := false,
           identity := none, size := align_allocation_size size m.min_elem_size }
  else none

/-- Models the pre-allocation loop of `JfrMemorySpace::initialize`: `i` is the index
of the next allocation (used as its fresh id), the second argument the number of
cache elements still to allocate. -/
def initLoop (heap : Nat → Bool) : Nat → Nat → JfrMemorySpace → Bool × JfrMemorySpace
  | _, 0, m => (true, m)
  | i, k + 1, m =>
    match m.allocate m.min_elem_size (heap i) i with
    | none => (false, m)
    | some t => initLoop heap (i + 1) k (m.insert_free_head t)

/-- Models `JfrMemorySpace::initialize()`: pre-allocates `cache_count` buffers of
size `min_elem_size` into the free list, reporting false as soon as one underlying
allocation fails (the partially filled pool is left behind, as in the source). -/
def JfrMemorySpace.init (m : JfrMemorySpace) (heap : Nat → Bool) :
    Bool × JfrMemorySpace :=
  initLoop heap 0 m.cache_count m

/-- Models `JfrMemorySpace::release_full(t)`: remove from the full list, then
either deallocate (second component true) or, for a non-transient buffer under a
positive `should_populate_cache` policy, prepend to the free list.  The
`should_populate_cache` policy is callback-supplied outside this translation unit
and is passed as the boolean `policy`. -/
def JfrMemorySpace.release_full (m : JfrMemorySpace) (t : JfrBuffer) (policy : Bool) :
    JfrMemorySpace × Bool :=
  if t.transient then (m.remove_full t, true)
  else if policy then ((m.remove_full t).insert_free_head t, false)
  else (m.remove_full t, true)

/-- Models `JfrMemorySpace::release_free(t)`: a transient buffer is removed from the
free list and deallocated; a non-transient buffer is kept in place when the
`should_populate_cache` policy holds and removed and deallocated otherwise. -/
def JfrMemorySpace.release_free (m : JfrMemorySpace) (t : JfrBuffer) (policy : Bool) :
    JfrMemorySpace × Bool :=
  if t.transient then (m.remove_free t, true)
  else if !policy then (m.remove_free t, true)
  else (m, false)

theorem id_not_mem_filter (l : List JfrBuffer) (i : Nat) :
    i ∉ (l.filter (fun b => b.id != i)).map JfrBuffer.id := by
  intro h
  obtain ⟨b, hb, hid⟩ := List.mem_map.mp h
  have h2 := (List.mem_filter.mp hb).2
  rw [hid] at h2
  simp at h2

theorem allocate_some {m : JfrMemorySpace} {size : Nat} {hb : Bool} {f : Nat}
    {t : JfrBuffer} (hs : m.allocate size hb f = some t) :
    hb = true ∧ t.id = f ∧ t.size = align_allocation_size size m.min_elem_size
    ∧ t.transient = false ∧ t.lease = false ∧ t.identity = none := by
  unfold JfrMemorySpace.allocate at hs
  split at hs
  · exact absurd hs (by simp)
  · split at hs
    · rename_i hh
      injection hs with h2
      subst h2
      exact ⟨hh, rfl, rfl, rfl, rfl, rfl⟩
    · exact absurd hs (by simp)

@[simp] theorem insert_free_head_full (m : JfrMemorySpace) (t : JfrBuffer) :
    (m.insert_free_head t).full = m.full := rfl

@[simp] theorem insert_free_head_free (m : JfrMemorySpace) (t : JfrBuffer) :
    (m.insert_free_head t).free = t :: m.free := rfl

@[simp] theorem insert_free_head_min (m : JfrMemorySpace) (t : JfrBuffer) :
    (m.insert_free_head t).min_elem_size = m.min_elem_size := rfl

@[simp] theorem insert_full_head_full (m : JfrMemorySpace) (t : JfrBuffer) :
    (m.insert_full_head t).full = t :: m.full := rfl

@[simp] theorem insert_full_head_free (m : JfrMemorySpace) (t : JfrBuffer) :
    (m.insert_full_head t).free = m.free := rfl

@[simp] theorem insert_full_head_min (m : JfrMemorySpace) (t : JfrBuffer) :
    (m.insert_full_head t).min_elem_size = m.min_elem_size := rfl

@[simp] theorem remove_full_full (m : JfrMemorySpace) (t : JfrBuffer) :
    (m.remove_full t).full = m.full.filter (fun b => b.id != t.id) := rfl

@[simp] theorem remove_full_free (m : JfrMemorySpace) (t : JfrBuffer) :
    (m.remove_full t).free = m.free := rfl

@[simp] theorem remove_free_free (m : JfrMemorySpace) (t : JfrBuffer) :
    (m.remove_free t).free = m.free.filter (fun b => b.id != t.id) := rfl

@[simp] theorem remove_free_full (m : JfrMemorySpace) (t : JfrBuffer) :
    (m.remove_free t).full = m.full := rfl

theorem initLoop_true_facts (heap : Nat → Bool) (k : Nat) :
    ∀ i m, (initLoop heap i k m).1 = true →
      (initLoop heap i k m).2.full = m.full
      ∧ (initLoop heap i k m).2.min_elem_size = m.min_elem_size
      ∧ (initLoop heap i k m).2.free.length = k + m.free.length
      ∧ ∀ b ∈ (initLoop heap i k m).2.free,
          b.size = align_allocation_size m.min_elem_size m.min_elem_size
          ∨ b ∈ m.free := by
  induction k with
  | zero =>
    intro i m _
    refine ⟨rfl, rfl, by simp [initLoop], ?_⟩
    intro b hb
    exact Or.inr hb
  | succ k ih =>
    intro i m h
    cases halloc : m.allocate m.min_elem_size (heap i) i with
    | none =>
      simp only [initLoop, halloc] at h
      exact absurd h (by simp)
    | some t =>
      simp only [initLoop, halloc] at h ⊢
      have hins := ih (i + 1) (m.insert_free_head t) h
      simp only [insert_free_head_full, insert_free_head_free, insert_free_head_min,
        List.length_cons] at hins
      obtain ⟨hfull, hmin, hlen, hmem⟩ := hins
      refine ⟨hfull, hmin, by omega, ?_⟩
      intro b hb
      rcases hmem b hb with hsz | hmemb
      · exact Or.inl hsz
      · rcases List.mem_cons.mp hmemb with rfl | hmemb
        · exact Or.inl (allocate_some halloc).2.2.1
        · exact Or.inr hmemb

theorem initLoop_true_heap (heap : Nat → Bool) (k : Nat) :
    ∀ i m, (initLoop heap i k m).1 = true →
      ∀ j, i ≤ j → j < i + k → heap j = true := by
  induction k with
  | zero => intro i m _ j h1 h2; omega
  | succ k ih =>
    intro i m h j h1 h2
    cases halloc : m.allocate m.min_elem_size (heap i) i with
    | none =>
      simp only [initLoop, halloc] at h
      exact absurd h (by simp)
    | some t =>
      simp only [initLoop, halloc] at h
      rcases Nat.eq_or_lt_of_le h1 with rfl | hlt
      · exact (allocate_some halloc).1
      · exact ih (i + 1) (m.insert_free_head t) h j hlt (by omega)

/-- C2: starting from a freshly constructed pool with `cache_count = N`, a
successful `initialize` leaves exactly N buffers in the free list, each of capacity
`min_elem_size`, with an empty full list; and `initialize` reports false whenever
one of the N underlying allocations fails. -/
theorem C2_init_prewarms (minsz limit N : Nat) (heap : Nat → Bool) :
    (((mkMspace minsz limit N).init heap).1 = true →
      ((mkMspace minsz limit N).init heap).2.free.length = N
      ∧ ((mkMspace minsz limit N).init heap).2.full = []
      ∧ ∀ b ∈ ((mkMspace minsz limit N).init heap).2.free, b.size = minsz)
    ∧ ((∃ i, i < N ∧ heap i = false) →
      ((mkMspace minsz limit N).init heap).1 = false) := by
  constructor
  · intro h
    have hf := initLoop_true_facts heap N 0 (mkMspace minsz limit N) h
    refine ⟨by simpa [mkMspace] using hf.2.2.1, by simpa [mkMspace] using hf.1, ?_⟩
    intro b hb
    rcases hf.2.2.2 b hb with hsz | hmem
    · rw [hsz]
      by_cases hB : minsz ≤ min_intx_as_size_t
      · simp only [mkMspace]
        rw [align_allocation_size, if_neg (by omega)]
        exact alignLoop_of_le 64 minsz minsz (Nat.le_refl minsz)
      · exfalso
        cases N with
        | zero =>
          have hl : ((mkMspace minsz limit 0).init heap).2.free.length = 0 := by
            simpa [mkMspace] using hf.2.2.1
          rw [List.length_eq_zero] at hl
          rw [hl] at hb
          exact absurd hb (List.not_mem_nil b)
        | succ n =>
          have hal : (mkMspace minsz limit (n + 1)).allocate
              (mkMspace minsz limit (n + 1)).min_elem_size (heap 0) 0 = none := by
            unfold JfrMemorySpace.allocate
            rw [if_pos]
            simp only [mkMspace]
            exact ⟨by omega, by rw [align_allocation_size, if_pos (by omega)]⟩
          have h0 : ((mkMspace minsz limit (n + 1)).init heap).1 = false := by
            unfold JfrMemorySpace.init
            simp only [mkMspace, initLoop] at hal ⊢
            rw [hal]
          rw [h0] at h
          exact absurd h (by simp)
    · exact absurd hmem (by simp [mkMspace])
  · rintro ⟨i, hiN, hif⟩
    cases hres : ((mkMspace minsz limit N).init heap).1 with
    | false => rfl
    | true =>
      have hh := initLoop_true_heap heap N 0 (mkMspace minsz limit N) hres i
        (by omega) (by omega)
      rw [hh] at hif
      exact absurd hif (by simp)

/-- Witness for C2: a pool of four buffers pre-warms four free buffers when the heap
always succeeds, and `initialize` reports false when the third allocation fails. -/
theorem C2_init_prewarms_witness :
    ((mkMspace 4096 0 4).init (fun _ => true)).2.free.length = 4
    ∧ ((mkMspace 4096 0 4).init (fun i => i != 2)).1 = false := by
  constructor
  · exact ((C2_init_prewarms 4096 0 4 (fun _ => true)).1 (by decide)).1
  · exact (C2_init_prewarms 4096 0 4 (fun i => i != 2)).2 ⟨2, by omega, by decide⟩

/-- C1: `release_full` removes the buffer from the full list; a transient buffer is
deallocated unconditionally (for either policy value) and re-enters neither list,
while a non-transient buffer is prepended to the free-list head when
`should_populate_cache` holds and deallocated otherwise.  `release_free` behaves
analogously on the free list: a transient buffer is removed and deallocated, a
non-transient buffer is kept (the pool is unchanged) under a positive policy and
removed and deallocated otherwise.  The second component of each result records
whether `deallocate` was called.  The hypotheses are the pool invariant that a
buffer resides in at most one list. -/
theorem C1_release_full_free (m : JfrMemorySpace) (t : JfrBuffer) (policy : Bool) :
    (t.id ∉ m.free.map JfrBuffer.id →
      t.id ∉ ((m.release_full t policy).1.full.map JfrBuffer.id)
      ∧ (t.transient = true →
          (m.release_full t policy).2 = true
          ∧ t.id ∉ ((m.release_full t policy).1.free.map JfrBuffer.id))
      ∧ (t.transient = false → policy = true →
          (m.release_full t policy).1.free.head? = some t
          ∧ (m.release_full t policy).2 = false)
      ∧ (t.transient = false → policy = false →
          (m.release_full t policy).2 = true
          ∧ t.id ∉ ((m.release_full t policy).1.free.map JfrBuffer.id)))
    ∧ (t.id ∉ m.full.map JfrBuffer.id →
      (t.transient = true →
          (m.release_free t policy).2 = true
          ∧ t.id ∉ ((m.release_free t policy).1.free.map JfrBuffer.id)
          ∧ t.id ∉ ((m.release_free t policy).1.full.map JfrBuffer.id))
      ∧ (t.transient = false → policy = true →
          (m.release_free t policy).1 = m ∧ (m.release_free t policy).2 = false)
      ∧ (t.transient = false → policy = false →
          (m.release_free t policy).2 = true
          ∧ t.id ∉ ((m.release_free t policy).1.free.map JfrBuffer.id))) := by
  constructor
  · intro hfree
    refine ⟨?_, ?_, ?_, ?_⟩
    · cases ht : t.transient with
      | true => simp [JfrMemorySpace.release_full, ht]
      | false =>
        cases hp : policy with
        | true => simp [JfrMemorySpace.release_full, ht, hp]
        | false => simp [JfrMemorySpace.release_full, ht, hp]
    · intro ht
      refine ⟨by simp [JfrMemorySpace.release_full, ht], ?_⟩
      simp only [JfrMemorySpace.release_full, ht, if_true, remove_full_free]
      exact fun hmem => hfree hmem
    · intro ht hp
      simp [JfrMemorySpace.release_full, ht, hp]
    · intro ht hp
      refine ⟨by simp [JfrMemorySpace.release_full, ht, hp], ?_⟩
      simp only [JfrMemorySpace.release_full, ht, hp, Bool.false_eq_true, if_false,
        remove_full_free]
      exact fun hmem => hfree hmem
  · intro hfull
    refine ⟨?_, ?_, ?_⟩
    · intro ht
      refine ⟨by simp [JfrMemorySpace.release_free, ht], ?_, ?_⟩
      · simp [JfrMemorySpace.release_free, ht]
      · simp only [JfrMemorySpace.release_free, ht, if_true, remove_free_full]
        exact fun hmem => hfull hmem
    · intro ht hp
      simp [JfrMemorySpace.release_free, ht, hp]
    · intro ht hp
      refine ⟨by simp [JfrMemorySpace.release_free, ht, hp], ?_⟩
      simp [JfrMemorySpace.release_free, ht, hp]

/-- A transient buffer residing in the full list of a concrete pool, used to witness
C1. -/
def cexTransBuf : JfrBuffer :=
  { id := 0, transient := true, lease := false, retired := false,
    identity := none, size := 4096 }

/-- A concrete pool whose full list holds `cexTransBuf`, used to witness C1. -/
def cexPoolFull : JfrMemorySpace :=
  { free := [], full := [cexTransBuf], min_elem_size := 4096, limit_size := 0,
    cache_count := 0 }

/-- Witness for C1: releasing the transient buffer from the full list deallocates it
and leaves it outside the free list even under a positive cache policy. -/
theorem C1_release_full_free_witness :
    (cexPoolFull.release_full cexTransBuf true).2 = true
    ∧ cexTransBuf.id ∉ ((cexPoolFull.release_full cexTransBuf true).1.free.map
        JfrBuffer.id) :=
  ((C1_release_full_free cexPoolFull cexTransBuf true).1 (by decide)).2.1 rfl

/-- Models `size_adjustment(size, mspace)`: sizes below the pool minimum are clamped
up to it.  (The C function caches `min_elem_size` in a function-local static taken
from the first pool passed; the model passes the pool explicitly, which is the
single-pool semantics.) -/
def size_adjustment (size : Nat) (m : JfrMemorySpace) : Nat :=
  if size < m.min_elem_size then m.min_elem_size else size

/-- Models `mspace_allocate(size, mspace)`: allocation at the adjusted size. -/
def mspace_allocate (size : Nat) (m : JfrMemorySpace) (heap_ok : Bool)
    (fresh_id : Nat) : Option JfrBuffer :=
  m.allocate (size_adjustment size m) heap_ok fresh_id

/-- C8: `mspace_allocate` is the pool's `allocate` applied to the requested size
clamped up to at least `min_elem_size`; in particular a request of 0 on a pool with
`min_elem_size = 4096` yields (when the heap succeeds) a buffer of capacity 4096. -/
theorem C8_mspace_allocate_clamped (size : Nat) (m : JfrMemorySpace) (heap_ok : Bool)
    (fresh_id : Nat) :
    mspace_allocate size m heap_ok fresh_id
      = m.allocate (max size m.min_elem_size) heap_ok fresh_id
    ∧ mspace_allocate 0 (mkMspace 4096 0 4) true 0
      = some { id := 0, transient := false, lease := false, retired := false,
               identity := none, size := 4096 } := by
  constructor
  · unfold mspace_allocate size_adjustment
    congr 1
    rcases Nat.lt_or_ge size m.min_elem_size with h | h
    · rw [if_pos h, max_eq_right (le_of_lt h)]
    · rw [if_neg (Nat.not_lt.mpr h), max_eq_left h]
  · decide

/-- Models `create_mspace(buffer_size, limit, cache_count, cb)`: construct the pool
(`new_ok` models the success of operator new), call `initialize` on it, but discard
the boolean result and return the pool regardless. -/
def create_mspace (buffer_size limit cache_count : Nat) (new_ok : Bool)
    (heap : Nat → Bool) : Option JfrMemorySpace :=
  if new_ok then some ((mkMspace buffer_size limit cache_count).init heap).2
  else none

/-- C9: `create_mspace` discards the result of `initialize`, returning the
constructed pool even when pre-warming failed; concretely, with `cache_count = 4`
and a heap that fails on the third allocation, the caller receives a pool whose free
list holds only 2 buffers, with no failure indication. -/
theorem C9_create_mspace_discards_failure (b l c : Nat) (heap : Nat → Bool) :
    (create_mspace b l c true heap).isSome = true
    ∧ create_mspace b l c true heap = some ((mkMspace b l c).init heap).2
    ∧ ((mkMspace 4096 0 4).init (fun i => decide (i < 2))).1 = false
    ∧ (create_mspace 4096 0 4 true (fun i => decide (i < 2))).isSome = true
    ∧ ((mkMspace 4096 0 4).init (fun i => decide (i < 2))).2.free.length = 2 :=
  ⟨rfl, rfl, by decide, by decide, by decide⟩

/-- Models the retry loop of `mspace_get_free_with_retry`: `get` is the pool's
retrieval policy `mspace->get(size, thread)` — a collaborator defined outside this
translation unit — modelled as a state transformer returning the acquired buffer or
none.  The third result component counts the `get` calls performed
(instrumentation, not program state). -/
def retryLoop (get : JfrMemorySpace → Option JfrBuffer × JfrMemorySpace) :
    Nat → JfrMemorySpace → Option JfrBuffer × JfrMemorySpace × Nat
  | 0, m => (none, m, 0)
  | k + 1, m =>
    match (get m).1 with
    | some t => (some t, (get m).2, 1)
    | none =>
      ((retryLoop get k (get m).2).1, (retryLoop get k (get m).2).2.1,
       (retryLoop get k (get m).2).2.2 + 1)

set_option linter.unusedVariables false in
/-- Models `mspace_get_free_with_retry(size, mspace, retry_count, thread)`; its
debug assertion on `size` is modelled separately by the `_dbg` variant.  The size
is otherwise only forwarded to the retrieval policy, which is already applied. -/
def mspace_get_free_with_retry (size : Nat)
    (get : JfrMemorySpace → Option JfrBuffer × JfrMemorySpace)
    (retry_count : Nat) (m : JfrMemorySpace) :
    Option JfrBuffer × JfrMemorySpace × Nat :=
  retryLoop get retry_count m

/-- The pool state after `k` calls of the retrieval oracle, starting from `m`. -/
def getStates (get : JfrMemorySpace → Option JfrBuffer × JfrMemorySpace)
    (m : JfrMemorySpace) : Nat → JfrMemorySpace
  | 0 => m
  | k + 1 => (get (getStates get m k)).2

theorem getStates_shift (get : JfrMemorySpace → Option JfrBuffer × JfrMemorySpace)
    (m : JfrMemorySpace) (k : Nat) :
    getStates get ((get m).2) k = getStates get m (k + 1) := by
  induction k with
  | zero => rfl
  | succ k ih => simp only [getStates, ih]

/-- The multiset of pool-managed buffers, by identity: used to state that an
operation performs no allocation into, and no deallocation out of, the pool. -/
def poolIds (m : JfrMemorySpace) : List Nat := (m.free ++ m.full).map JfrBuffer.id

theorem retryLoop_calls_le (get : JfrMemorySpace → Option JfrBuffer × JfrMemorySpace)
    (R : Nat) : ∀ m, (retryLoop get R m).2.2 ≤ R := by
  induction R with
  | zero => intro m; simp [retryLoop]
  | succ k ih =>
    intro m
    cases hg : (get m).1 with
    | some t => simp [retryLoop, hg]
    | none =>
      simp only [retryLoop, hg]
      have := ih (get m).2
      omega

theorem retryLoop_all_none (get : JfrMemorySpace → Option JfrBuffer × JfrMemorySpace)
    (R : Nat) : ∀ m, (∀ i, i < R → (get (getStates get m i)).1 = none) →
      retryLoop get R m = (none, getStates get m R, R) := by
  induction R with
  | zero => intro m _; rfl
  | succ k ih =>
    intro m h
    have h0 : (get m).1 = none := h 0 (by omega)
    simp only [retryLoop, h0]
    have hsh : ∀ i, i < k → (get (getStates get ((get m).2) i)).1 = none := by
      intro i hi
      rw [getStates_shift]
      exact h (i + 1) (by omega)
    rw [ih ((get m).2) hsh, getStates_shift]

theorem retryLoop_first_some (get : JfrMemorySpace → Option JfrBuffer × JfrMemorySpace) :
    ∀ k R m t, k < R →
      (∀ j, j < k → (get (getStates get m j)).1 = none) →
      (get (getStates get m k)).1 = some t →
      retryLoop get R m = (some t, (get (getStates get m k)).2, k + 1) := by
  intro k
  induction k with
  | zero =>
    intro R m t hR hfail hsome
    obtain ⟨Rp, rfl⟩ : ∃ Rp, R = Rp + 1 := ⟨R - 1, by omega⟩
    have hsome1 : (get m).1 = some t := hsome
    simp only [retryLoop, hsome1]
    rfl
  | succ k ih =>
    intro R m t hR hfail hsome
    obtain ⟨Rp, rfl⟩ : ∃ Rp, R = Rp + 1 := ⟨R - 1, by omega⟩
    have h0 : (get m).1 = none := hfail 0 (by omega)
    simp only [retryLoop, h0]
    have hsh_fail : ∀ j, j < k → (get (getStates get ((get m).2) j)).1 = none := by
      intro j hj
      rw [getStates_shift]
      exact hfail (j + 1) (by omega)
    have hsh_some : (get (getStates get ((get m).2) k)).1 = some t := by
      rw [getStates_shift]
      exact hsome
    rw [ih Rp ((get m).2) t (by omega) hsh_fail hsh_some, getStates_shift]

theorem retryLoop_preserves_ids
    (get : JfrMemorySpace → Option JfrBuffer × JfrMemorySpace)
    (hp : ∀ p, poolIds (get p).2 = poolIds p) :
    ∀ R m, poolIds (retryLoop get R m).2.1 = poolIds m := by
  intro R
  induction R with
  | zero => intro m; rfl
  | succ k ih =>
    intro m
    cases hg : (get m).1 with
    | some t =>
      simp only [retryLoop, hg]
      exact hp m
    | none =>
      simp only [retryLoop, hg]
      rw [ih ((get m).2), hp m]

/-- C3: `mspace_get_free_with_retry` performs at most `retry_count` calls to the
retrieval policy; with a bound of 0 it returns none immediately; it returns none
(after exactly `retry_count` attempts) when every attempt fails; it returns the
first successful attempt; and it never allocates a buffer as a side effect:
whenever the retrieval policy preserves the population of pool-managed buffers, so
does the whole retry operation. -/
theorem C3_retry_bounded_no_alloc (size R : Nat)
    (get : JfrMemorySpace → Option JfrBuffer × JfrMemorySpace) (m : JfrMemorySpace) :
    ((mspace_get_free_with_retry size get R m).2.2 ≤ R)
    ∧ (R = 0 → mspace_get_free_with_retry size get R m = (none, m, 0))
    ∧ ((∀ i, i < R → (get (getStates get m i)).1 = none) →
        (mspace_get_free_with_retry size get R m).1 = none
        ∧ (mspace_get_free_with_retry size get R m).2.2 = R)
    ∧ (∀ k t, k < R → (∀ j, j < k → (get (getStates get m j)).1 = none) →
        (get (getStates get m k)).1 = some t →
        (mspace_get_free_with_retry size get R m).1 = some t
        ∧ (mspace_get_free_with_retry size get R m).2.2 = k + 1)
    ∧ ((∀ p, poolIds (get p).2 = poolIds p) →
        poolIds (mspace_get_free_with_retry size get R m).2.1 = poolIds m) := by
  refine ⟨retryLoop_calls_le get R m, ?_, ?_, ?_, ?_⟩
  · rintro rfl
    rfl
  · intro h
    unfold mspace_get_free_with_retry
    rw [retryLoop_all_none get R m h]
    exact ⟨rfl, rfl⟩
  · intro k t hk hfail hsome
    unfold mspace_get_free_with_retry
    rw [retryLoop_first_some get k R m t hk hfail hsome]
    exact ⟨rfl, rfl⟩
  · intro hp
    exact retryLoop_preserves_ids get hp R m

/-- A retrieval oracle that always fails and leaves the pool untouched; used in
witness instantiations. -/
def noneGet : JfrMemorySpace → Option JfrBuffer × JfrMemorySpace := fun p => (none, p)

/-- Witness for C3: with an always-failing retrieval policy and bound 3, the retry
returns none after exactly 3 attempts. -/
theorem C3_retry_bounded_no_alloc_witness :
    (mspace_get_free_with_retry 0 noneGet 3 (mkMspace 4096 0 0)).1 = none
    ∧ (mspace_get_free_with_retry 0 noneGet 3 (mkMspace 4096 0 0)).2.2 = 3 :=
  (C3_retry_bounded_no_alloc 0 3 noneGet (mkMspace 4096 0 0)).2.2.1 (fun _ _ => rfl)

/-- Models `mspace_get_free_with_retry` together with its debug assertion
`assert(size <= mspace->min_elem_size(), "invariant")`: the first component is
either the surviving computation or the assertion failure; the second counts the
retrieval attempts performed before the outcome — 0 when the assertion fires,
since the assertion precedes the loop. -/
def mspace_get_free_with_retry_dbg (size : Nat)
    (get : JfrMemorySpace → Option JfrBuffer × JfrMemorySpace)
    (retry_count : Nat) (m : JfrMemorySpace) :
    Except Unit (Option JfrBuffer × JfrMemorySpace × Nat) × Nat :=
  if size ≤ m.min_elem_size then
    (Except.ok (mspace_get_free_with_retry size get retry_count m),
     (mspace_get_free_with_retry size get retry_count m).2.2)
  else (Except.error (), 0)

/-- C10: the debug assertion of `mspace_get_free_with_retry` is exactly the
undocumented precondition `size ≤ min_elem_size`: under that precondition the
assertion never fires — for every size, pool, retry bound and retrieval policy the
function behaves as the plain retry loop — while for any size above the pool
minimum the assertion fires before any retrieval attempt is made. -/
theorem C10_retry_precondition (size R : Nat)
    (get : JfrMemorySpace → Option JfrBuffer × JfrMemorySpace) (m : JfrMemorySpace) :
    (size ≤ m.min_elem_size →
      (mspace_get_free_with_retry_dbg size get R m).1
        = Except.ok (mspace_get_free_with_retry size get R m))
    ∧ (m.min_elem_size < size →
      (mspace_get_free_with_retry_dbg size get R m).1 = Except.error ()
      ∧ (mspace_get_free_with_retry_dbg size get R m).2 = 0) := by
  constructor
  · intro h
    simp [mspace_get_free_with_retry_dbg, h]
  · intro h
    have hn : ¬ size ≤ m.min_elem_size := by omega
    simp [mspace_get_free_with_retry_dbg, hn]

/-- Witness for C10: on a pool with minimum element size 4096 the assertion passes
for a request of 0 and fires with zero attempts for a request of 5000. -/
theorem C10_retry_precondition_witness :
    (mspace_get_free_with_retry_dbg 0 noneGet 2 (mkMspace 4096 0 0)).1
      = Except.ok (mspace_get_free_with_retry 0 noneGet 2 (mkMspace 4096 0 0))
    ∧ (mspace_get_free_with_retry_dbg 5000 noneGet 2 (mkMspace 4096 0 0)).1
      = Except.error ()
    ∧ (mspace_get_free_with_retry_dbg 5000 noneGet 2 (mkMspace 4096 0 0)).2 = 0 :=
  ⟨(C10_retry_precondition 0 2 noneGet (mkMspace 4096 0 0)).1 (by decide),
   (C10_retry_precondition 5000 2 noneGet (mkMspace 4096 0 0)).2 (by decide)⟩

/-- Models `mspace_allocate_acquired(size, mspace, thread)`: allocate at the
adjusted size, then mark the new buffer acquired by `thread`. -/
def mspace_allocate_acquired (size : Nat) (m : JfrMemorySpace) (heap_ok : Bool)
    (fresh_id thread : Nat) : Option JfrBuffer :=
  match mspace_allocate size m heap_ok fresh_id with
  | none => none
  | some t => some (t.acquire thread)

/-- Models `mspace_allocate_transient(size, mspace, thread)`: an acquired
allocation additionally marked transient. -/
def mspace_allocate_transient (size : Nat) (m : JfrMemorySpace) (heap_ok : Bool)
    (fresh_id thread : Nat) : Option JfrBuffer :=
  match mspace_allocate_acquired size m heap_ok fresh_id thread with
  | none => none
  | some t => some t.set_transient

/-- Models `mspace_allocate_transient_lease(size, mspace, thread)`: a transient
allocation additionally marked leased. -/
def mspace_allocate_transient_lease (size : Nat) (m : JfrMemorySpace)
    (heap_ok : Bool) (fresh_id thread : Nat) : Option JfrBuffer :=
  match mspace_allocate_transient size m heap_ok fresh_id thread with
  | none => none
  | some t => some t.set_lease

/-- Models `mspace_allocate_to_full(size, mspace, thread)`: an acquired allocation
inserted at the head of the full list (the caller holds the lock). -/
def mspace_allocate_to_full (size : Nat) (m : JfrMemorySpace) (heap_ok : Bool)
    (fresh_id thread : Nat) : Option JfrBuffer × JfrMemorySpace :=
  match mspace_allocate_acquired size m heap_ok fresh_id thread with
  | none => (none, m)
  | some t => (some t, m.insert_full_head t)

/-- Models `mspace_allocate_transient_to_full(size, mspace, thread)`: a transient
allocation inserted, under the lock, at the head of the full list. -/
def mspace_allocate_transient_to_full (size : Nat) (m : JfrMemorySpace)
    (heap_ok : Bool) (fresh_id thread : Nat) : Option JfrBuffer × JfrMemorySpace :=
  match mspace_allocate_transient size m heap_ok fresh_id thread with
  | none => (none, m)
  | some t => (some t, m.insert_full_head t)

/-- Value-semantics counterpart of an in-place `t->set_lease()` on a buffer that is
also resident in a pool list: the list copy with the same identity receives the
lease flag as well. -/
def JfrMemorySpace.apply_set_lease (m : JfrMemorySpace) (i : Nat) : JfrMemorySpace :=
  { m with
    free := m.free.map (fun b => if b.id = i then b.set_lease else b),
    full := m.full.map (fun b => if b.id = i then b.set_lease else b) }

/-- Models `mspace_get_free_lease_with_retry(size, mspace, retry_count, thread)`:
retry the retrieval policy and, on success, set the lease flag on the returned
buffer (which stays resident in the free list — hence the in-place update). -/
def mspace_get_free_lease_with_retry (size : Nat)
    (get : JfrMemorySpace → Option JfrBuffer × JfrMemorySpace)
    (retry_count : Nat) (m : JfrMemorySpace) :
    Option JfrBuffer × JfrMemorySpace × Nat :=
  match (mspace_get_free_with_retry size get retry_count m).1 with
  | some t =>
    (some t.set_lease,
     (mspace_get_free_with_retry size get retry_count m).2.1.apply_set_lease t.id,
     (mspace_get_free_with_retry size get retry_count m).2.2)
  | none =>
    (none, (mspace_get_free_with_retry size get retry_count m).2.1,
     (mspace_get_free_with_retry size get retry_count m).2.2)

/-- Models `mspace_get_lease(size, mspace, thread)`.  Its first step calls
`mspace_get_free_lease`, whose definition is not part of this translation unit.
Modelled from the spec: `mspace_get_free_lease` tries to obtain a leased buffer from
the free list, so it is passed here as the oracle `gfl`.  On its failure the source
allocates a transient buffer into the full list and sets its lease flag (the
in-place update also covers the copy resident in the full list). -/
def mspace_get_lease (size : Nat)
    (gfl : JfrMemorySpace → Option JfrBuffer × JfrMemorySpace)
    (m : JfrMemorySpace) (heap_ok : Bool) (fresh_id thread : Nat) :
    Option JfrBuffer × JfrMemorySpace :=
  match (gfl m).1 with
  | some t => (some t, (gfl m).2)
  | none =>
    match (mspace_allocate_transient_to_full size ((gfl m).2) heap_ok fresh_id
        thread).1 with
    | some t =>
      (some t.set_lease,
       ((mspace_allocate_transient_to_full size ((gfl m).2) heap_ok fresh_id
          thread).2).apply_set_lease t.id)
    | none =>
      (none, (mspace_allocate_transient_to_full size ((gfl m).2) heap_ok fresh_id
        thread).2)

theorem allocate_acquired_some {size : Nat} {m : JfrMemorySpace} {heap_ok : Bool}
    {fresh_id thread : Nat} {v : JfrBuffer}
    (h : mspace_allocate_acquired size m heap_ok fresh_id thread = some v) :
    v.id = fresh_id ∧ v.identity = some thread := by
  unfold mspace_allocate_acquired at h
  cases ha : mspace_allocate size m heap_ok fresh_id with
  | none => rw [ha] at h; exact absurd h (by simp)
  | some w =>
    rw [ha] at h
    injection h with h
    subst h
    have ha2 : m.allocate (size_adjustment size m) heap_ok fresh_id = some w := ha
    have hw := allocate_some ha2
    exact ⟨hw.2.1, rfl⟩

theorem allocate_transient_some {size : Nat} {m : JfrMemorySpace} {heap_ok : Bool}
    {fresh_id thread : Nat} {u : JfrBuffer}
    (h : mspace_allocate_transient size m heap_ok fresh_id thread = some u) :
    u.transient = true ∧ u.id = fresh_id ∧ u.identity = some thread := by
  unfold mspace_allocate_transient at h
  cases ha : mspace_allocate_acquired size m heap_ok fresh_id thread with
  | none => rw [ha] at h; exact absurd h (by simp)
  | some v =>
    rw [ha] at h
    injection h with h
    subst h
    have hv := allocate_acquired_some ha
    exact ⟨rfl, hv.1, hv.2⟩

theorem allocate_transient_to_full_some {size : Nat} {m : JfrMemorySpace}
    {heap_ok : Bool} {fresh_id thread : Nat} {u : JfrBuffer}
    (h : (mspace_allocate_transient_to_full size m heap_ok fresh_id thread).1
      = some u) :
    mspace_allocate_transient size m heap_ok fresh_id thread = some u := by
  unfold mspace_allocate_transient_to_full at h
  cases ha : mspace_allocate_transient size m heap_ok fresh_id thread with
  | none => rw [ha] at h; exact absurd h (by simp)
  | some v =>
    rw [ha] at h
    simp at h
    subst h
    rfl

/-- A non-transient cached buffer sitting in a pool's free list, as produced by
`initialize` pre-warming. -/
def cexFreeBuf : JfrBuffer :=
  { id := 1, transient := false, lease := false, retired := false,
    identity := none, size := 4096 }

/-- A pool whose free list holds the non-transient `cexFreeBuf`. -/
def cexPoolFree : JfrMemorySpace :=
  { free := [cexFreeBuf], full := [], min_elem_size := 4096, limit_size := 0,
    cache_count := 1 }

/-- A concrete retrieval policy that acquires the head of the free list for
thread 7 without removing it from the list, mirroring the free-list retrieval
collaborator. -/
def headGet : JfrMemorySpace → Option JfrBuffer × JfrMemorySpace :=
  fun p =>
    match p.free.head? with
    | some b => (some (b.acquire 7), p)
    | none => (none, p)

/-- C5 counterexample: `mspace_get_free_lease_with_retry` hands out a buffer whose
lease flag is set but whose transient flag is false — the lease flag is applied to
a cached, non-transient free-list buffer, so a leased buffer is not always
transient and `set_lease` is applied to a buffer whose transient flag is false. -/
theorem C5_lease_not_transient_cex :
    ((mspace_get_free_lease_with_retry 0 headGet 1 cexPoolFree).1.map
        JfrBuffer.lease = some true)
    ∧ ((mspace_get_free_lease_with_retry 0 headGet 1 cexPoolFree).1.map
        JfrBuffer.transient = some false) := by
  exact ⟨rfl, rfl⟩

/-- C5 (amended): on the allocation paths the invariant holds — a buffer produced
by `mspace_allocate_transient_lease`, and a buffer returned by `mspace_get_lease`
when its free-list lease attempt failed, is transient whenever leased, since
`set_lease` there follows `set_transient`.  The free-list paths
(`mspace_get_free_lease_with_retry`, and the successful free branch of
`mspace_get_lease`) do not guarantee this, as the counterexample shows. -/
theorem C5_lease_implies_transient_on_alloc_paths (size : Nat)
    (gfl : JfrMemorySpace → Option JfrBuffer × JfrMemorySpace)
    (m : JfrMemorySpace) (heap_ok : Bool) (fresh_id thread : Nat) :
    (∀ t, mspace_allocate_transient_lease size m heap_ok fresh_id thread = some t →
      t.transient = true ∧ t.lease = true)
    ∧ ((gfl m).1 = none →
      ∀ t, (mspace_get_lease size gfl m heap_ok fresh_id thread).1 = some t →
        t.transient = true ∧ t.lease = true) := by
  constructor
  · intro t ht
    unfold mspace_allocate_transient_lease at ht
    cases hat : mspace_allocate_transient size m heap_ok fresh_id thread with
    | none => rw [hat] at ht; exact absurd ht (by simp)
    | some u =>
      rw [hat] at ht
      injection ht with ht
      subst ht
      exact ⟨(allocate_transient_some hat).1, rfl⟩
  · intro hg t ht
    unfold mspace_get_lease at ht
    rw [hg] at ht
    cases ha : (mspace_allocate_transient_to_full size ((gfl m).2) heap_ok fresh_id
        thread).1 with
    | none =>
      simp only [ha] at ht
      exact absurd ht (by simp)
    | some u =>
      simp only [ha] at ht
      injection ht with ht
      subst ht
      exact ⟨(allocate_transient_some (allocate_transient_to_full_some ha)).1, rfl⟩

/-- The transient leased buffer produced by the allocation fallback of
`mspace_get_lease` in the witness instantiation. -/
def cexAllocLeased : JfrBuffer :=
  { id := 5, transient := true, lease := true, retired := false,
    identity := some 7, size := 4096 }

/-- Witness for C5: with a failing free-list lease attempt, `mspace_get_lease`
falls back to allocation and hands out a buffer that is both transient and
leased. -/
theorem C5_lease_implies_transient_on_alloc_paths_witness :
    cexAllocLeased.transient = true ∧ cexAllocLeased.lease = true :=
  (C5_lease_implies_transient_on_alloc_paths 0 noneGet (mkMspace 4096 0 0) true 5
    7).2 rfl cexAllocLeased (by decide)

/-- Models `move_to_head(t, mspace->free(), mspace->full())`:
`full.prepend(free.remove(t))`. -/
def move_to_head_free_to_full (m : JfrMemorySpace) (t : JfrBuffer) : JfrMemorySpace :=
  { m with free := m.free.filter (fun b => b.id != t.id), full := t :: m.full }

set_option linter.unusedVariables false in
/-- Models `mspace_get_free_to_full(size, mspace, thread)`: run the retrieval
policy and move a retrieved buffer from the free list to the head of the full list
(the size is only consumed by the debug assertion and the policy itself). -/
def mspace_get_free_to_full (size : Nat)
    (get : JfrMemorySpace → Option JfrBuffer × JfrMemorySpace)
    (m : JfrMemorySpace) : Option JfrBuffer × JfrMemorySpace :=
  match (get m).1 with
  | none => (none, (get m).2)
  | some t => (some t, move_to_head_free_to_full ((get m).2) t)

/-- Models `mspace_get_to_full(size, mspace, thread)`: adjust the size; under the
lock, when the adjusted size fits the pool minimum, try the free list first, moving
a hit into the full list; otherwise, or when that fails, allocate a fresh acquired
buffer straight into the full list. -/
def mspace_get_to_full (size : Nat)
    (get : JfrMemorySpace → Option JfrBuffer × JfrMemorySpace)
    (m : JfrMemorySpace) (heap_ok : Bool) (fresh_id thread : Nat) :
    Option JfrBuffer × JfrMemorySpace :=
  if size_adjustment size m ≤ m.min_elem_size then
    match (mspace_get_free_to_full (size_adjustment size m) get m).1 with
    | some t => (some t, (mspace_get_free_to_full (size_adjustment size m) get m).2)
    | none =>
      mspace_allocate_to_full (size_adjustment size m)
        ((mspace_get_free_to_full (size_adjustment size m) get m).2) heap_ok
        fresh_id thread
  else mspace_allocate_to_full (size_adjustment size m) m heap_ok fresh_id thread

theorem get_free_to_full_some {s : Nat}
    {get : JfrMemorySpace → Option JfrBuffer × JfrMemorySpace}
    {m : JfrMemorySpace} {u : JfrBuffer}
    (h : (mspace_get_free_to_full s get m).1 = some u) :
    (get m).1 = some u
    ∧ (mspace_get_free_to_full s get m).2
        = move_to_head_free_to_full ((get m).2) u := by
  unfold mspace_get_free_to_full at h ⊢
  cases hg : (get m).1 with
  | none => simp [hg] at h
  | some v =>
    simp only [hg] at h ⊢
    simp at h
    subst h
    exact ⟨rfl, rfl⟩

theorem get_free_to_full_none {s : Nat}
    {get : JfrMemorySpace → Option JfrBuffer × JfrMemorySpace} {m : JfrMemorySpace}
    (h : (mspace_get_free_to_full s get m).1 = none) :
    (mspace_get_free_to_full s get m).2 = (get m).2 := by
  unfold mspace_get_free_to_full at h ⊢
  cases hg : (get m).1 with
  | none => simp [hg]
  | some v => simp [hg] at h

theorem allocate_to_full_some {s : Nat} {p : JfrMemorySpace} {hb : Bool}
    {f th : Nat} {t : JfrBuffer}
    (h : (mspace_allocate_to_full s p hb f th).1 = some t) :
    mspace_allocate_acquired s p hb f th = some t
    ∧ (mspace_allocate_to_full s p hb f th).2 = p.insert_full_head t := by
  unfold mspace_allocate_to_full at h ⊢
  cases ha : mspace_allocate_acquired s p hb f th with
  | none => simp [ha] at h
  | some u =>
    simp only [ha] at h ⊢
    simp at h
    subst h
    exact ⟨rfl, rfl⟩

theorem allocate_to_full_none {s : Nat} {p : JfrMemorySpace} {hb : Bool} {f th : Nat}
    (h : (mspace_allocate_to_full s p hb f th).1 = none) :
    mspace_allocate_acquired s p hb f th = none := by
  unfold mspace_allocate_to_full at h
  cases ha : mspace_allocate_acquired s p hb f th with
  | none => rfl
  | some u => simp [ha] at h

theorem allocate_acquired_min_eq {p q : JfrMemorySpace}
    (h : p.min_elem_size = q.min_elem_size) (s : Nat) (hb : Bool) (f th : Nat) :
    mspace_allocate_acquired s p hb f th = mspace_allocate_acquired s q hb f th := by
  unfold mspace_allocate_acquired mspace_allocate JfrMemorySpace.allocate
    size_adjustment
  rw [h]

/-- C6: `mspace_get_to_full` always returns either a buffer resident at the head of
the resulting pool's full list and acquired by `thread` — either retrieved from the
free list and moved to the full list, or freshly allocated (carrying the fresh
allocation's identity) and inserted there directly — or none, and none only when
the fresh allocation itself failed.  The hypotheses are the retrieval
collaborator's contract: a retrieved buffer is acquired by the calling thread, and
retrieval does not change the pool's minimum element size. -/
theorem C6_get_to_full (size : Nat)
    (get : JfrMemorySpace → Option JfrBuffer × JfrMemorySpace)
    (m : JfrMemorySpace) (heap_ok : Bool) (fresh_id thread : Nat)
    (hacq : ∀ p t, (get p).1 = some t → t.identity = some thread)
    (hmin : ∀ p, (get p).2.min_elem_size = p.min_elem_size) :
    (∀ t, (mspace_get_to_full size get m heap_ok fresh_id thread).1 = some t →
      (mspace_get_to_full size get m heap_ok fresh_id thread).2.full.head? = some t
      ∧ t.identity = some thread
      ∧ ((get m).1 = some t ∨ t.id = fresh_id))
    ∧ ((mspace_get_to_full size get m heap_ok fresh_id thread).1 = none →
      mspace_allocate_acquired (size_adjustment size m) m heap_ok fresh_id thread
        = none) := by
  constructor
  · intro t ht
    unfold mspace_get_to_full at ht ⊢
    by_cases hsz : size_adjustment size m ≤ m.min_elem_size
    · rw [if_pos hsz] at ht ⊢
      cases hf : (mspace_get_free_to_full (size_adjustment size m) get m).1 with
      | some u =>
        simp only [hf] at ht ⊢
        simp at ht
        subst ht
        obtain ⟨hgu, hstate⟩ := get_free_to_full_some hf
        rw [hstate]
        exact ⟨rfl, hacq m u hgu, Or.inl hgu⟩
      | none =>
        simp only [hf] at ht ⊢
        obtain ⟨hall, hstate⟩ := allocate_to_full_some ht
        rw [hstate]
        have hid := allocate_acquired_some hall
        exact ⟨rfl, hid.2, Or.inr hid.1⟩
    · rw [if_neg hsz] at ht ⊢
      obtain ⟨hall, hstate⟩ := allocate_to_full_some ht
      rw [hstate]
      have hid := allocate_acquired_some hall
      exact ⟨rfl, hid.2, Or.inr hid.1⟩
  · intro ht
    unfold mspace_get_to_full at ht
    by_cases hsz : size_adjustment size m ≤ m.min_elem_size
    · rw [if_pos hsz] at ht
      cases hf : (mspace_get_free_to_full (size_adjustment size m) get m).1 with
      | some u => simp [hf] at ht
      | none =>
        simp only [hf] at ht
        have hfail := allocate_to_full_none ht
        rw [get_free_to_full_none hf] at hfail
        rw [← allocate_acquired_min_eq (hmin m) (size_adjustment size m) heap_ok
          fresh_id thread]
        exact hfail
    · rw [if_neg hsz] at ht
      exact allocate_to_full_none ht

/-- Witness for C6: with an always-failing retrieval policy and a succeeding heap,
`mspace_get_to_full` on request 0 yields a freshly allocated buffer, acquired by
thread 7, at the head of the full list. -/
theorem C6_get_to_full_witness :
    (mspace_get_to_full 0 noneGet (mkMspace 4096 0 0) true 5 7).2.full.head?
      = some { id := 5, transient := false, lease := false, retired := false,
               identity := some 7, size := 4096 } :=
  ((C6_get_to_full 0 noneGet (mkMspace 4096 0 0) true 5 7
      (fun _ t h => Option.noConfusion h) (fun _ => rfl)).1
    { id := 5, transient := false, lease := false, retired := false,
      identity := some 7, size := 4096 } (by decide)).1

/-- Models the cursor and storage of a buffer as seen by the migration helper:
`mem` maps addresses in the buffer's address space to byte values; `start`, `pos`
and `end_` model `start()`, `pos()` and `end()`. -/
structure WBuffer where
  start : Nat
  pos : Nat
  end_ : Nat
  mem : Nat → Nat

/-- Models `free_size()`: the room between the write position and the end. -/
def WBuffer.free_size (b : WBuffer) : Nat := b.end_ - b.pos

/-- Models `memcpy(dst + dpos, src + spos, n)` over address-indexed memory. -/
def memcpy_mem (dst : Nat → Nat) (dpos : Nat) (src : Nat → Nat) (spos n : Nat) :
    Nat → Nat :=
  fun a => if dpos ≤ a ∧ a < dpos + n then src (spos + (a - dpos)) else dst a

set_option linter.unusedVariables false in
/-- Models `migrate_outstanding_writes(old, new_buffer, used, requested)`: when
`used > 0`, `memcpy(new_buffer->pos(), old->pos(), used)`; `requested` is consumed
only by the debug assertion `assert_migration_state`. -/
def migrate_outstanding_writes (old new_buffer : WBuffer) (used requested : Nat) :
    WBuffer :=
  if used > 0 then
    { new_buffer with
      mem := memcpy_mem new_buffer.mem new_buffer.pos old.mem old.pos used }
  else new_buffer

set_option linter.unusedVariables false in
/-- C7: under the migration preconditions checked by `assert_migration_state` — the
old cursor is internally consistent (`start ≤ pos` and `pos + used ≤ end`) and the
destination has at least `used + requested` bytes free — `migrate_outstanding_writes`
copies exactly the `used` bytes at the old write position to the new write
position: inside the copied window the destination holds the old bytes, outside it
the destination memory and all cursor fields are untouched, and nothing is copied
when `used = 0`. -/
theorem C7_migrate_copies_used_bytes (old new_buffer : WBuffer)
    (used requested : Nat)
    (h1 : old.start ≤ old.pos) (h2 : old.pos + used ≤ old.end_)
    (h3 : used + requested ≤ new_buffer.free_size) :
    (∀ i, i < used →
      (migrate_outstanding_writes old new_buffer used requested).mem
          (new_buffer.pos + i)
        = old.mem (old.pos + i))
    ∧ (∀ a, a < new_buffer.pos ∨ new_buffer.pos + used ≤ a →
      (migrate_outstanding_writes old new_buffer used requested).mem a
        = new_buffer.mem a)
    ∧ (migrate_outstanding_writes old new_buffer used requested).pos
        = new_buffer.pos
    ∧ (migrate_outstanding_writes old new_buffer used requested).start
        = new_buffer.start
    ∧ (migrate_outstanding_writes old new_buffer used requested).end_
        = new_buffer.end_
    ∧ (used = 0 →
      migrate_outstanding_writes old new_buffer used requested = new_buffer) := by
  unfold migrate_outstanding_writes
  by_cases hu : used > 0
  · rw [if_pos hu]
    refine ⟨?_, ?_, rfl, rfl, rfl, fun h0 => absurd h0 (by omega)⟩
    · intro i hi
      show memcpy_mem new_buffer.mem new_buffer.pos old.mem old.pos used
          (new_buffer.pos + i) = old.mem (old.pos + i)
      unfold memcpy_mem
      rw [if_pos ⟨by omega, by omega⟩]
      congr 1
      omega
    · intro a ha
      show memcpy_mem new_buffer.mem new_buffer.pos old.mem old.pos used a
          = new_buffer.mem a
      unfold memcpy_mem
      rw [if_neg]
      rintro ⟨hge, hlt⟩
      omega
  · rw [if_neg hu]
    exact ⟨fun i hi => absurd hi (by omega), fun a _ => rfl, rfl, rfl, rfl,
      fun _ => rfl⟩

/-- The source buffer of the migration witness: bytes `a ↦ a + 100`, write cursor
at 5 with 15 bytes to the end. -/
def cexOldBuf : WBuffer :=
  { start := 0, pos := 5, end_ := 20, mem := fun a => a + 100 }

/-- The destination buffer of the migration witness: zeroed bytes, write cursor at
10 with 20 bytes free. -/
def cexNewBuf : WBuffer :=
  { start := 0, pos := 10, end_ := 30, mem := fun _ => 0 }

/-- Witness for C7: migrating 3 in-flight bytes copies the byte at offset 1 of the
old write position to offset 1 of the new write position. -/
theorem C7_migrate_copies_used_bytes_witness :
    (migrate_outstanding_writes cexOldBuf cexNewBuf 3 1).mem (cexNewBuf.pos + 1)
      = cexOldBuf.mem (cexOldBuf.pos + 1) :=
  (C7_migrate_copies_used_bytes cexOldBuf cexNewBuf 3 1 (by decide) (by decide)
    (by decide)).1 1 (by decide)
